import Mathlib

/-!
Verification development for the roster-to-judging-sheet generator
(`src/app.py`).  The enrichment pipeline is shallowly embedded:

* `Cell` models a raw spreadsheet cell value as produced by pandas:
  a string, the float-NaN placeholder of an empty cell, or a number.
* `extract_video_id` models `extract_video_id` (app.py lines 31-44):
  three regex rules tried in priority order, each capturing eleven
  characters from `[0-9A-Za-z_-]`, scanning positions left to right
  exactly as `re.search` does.
* `parse_duration` / `format_duration` model `format_duration`
  (app.py lines 77-86) together with the external `isodate` parser.
* `fetch_youtube_details` models the chunked batch fetch
  (app.py lines 46-75) against an API oracle `ApiEnv`.
* `enrichRow` / `processSheet` / `processWorkbook` model the per-row
  classification loop and per-sheet control flow (app.py lines 198-304).
-/

/-- Model of a raw cell value read from the roster spreadsheet.
`Cell.s` is a string cell, `Cell.nanF` is the float NaN that pandas
yields for an empty cell, `Cell.num` is a numeric cell (modelled as an
integer). -/
inductive Cell where
  | s (v : String)
  | nanF
  | num (n : Int)
deriving DecidableEq

/-- Model of Python `str(x)` on a cell value: a string is returned
unchanged, float NaN prints as "nan", an integer prints in decimal. -/
def cellStr : Cell → String
  | Cell.s v => v
  | Cell.nanF => "nan"
  | Cell.num n => toString n

/-- Model of Python `str.lower` restricted to the ASCII case mapping
(the only case that matters for the "nan" comparisons in the source). -/
def strLower (s : String) : String :=
  String.mk (s.data.map Char.toLower)

/-- Model of Python truthiness of a cell value: the empty string is
falsy, float NaN is truthy, a number is truthy iff nonzero. -/
def truthy : Cell → Bool
  | Cell.s v => decide (v ≠ "")
  | Cell.nanF => true
  | Cell.num n => decide (n ≠ 0)

/-- The character class `[0-9A-Za-z_-]` of the three regex patterns in
`extract_video_id`. -/
def allowedChar (c : Char) : Bool :=
  (('0' ≤ c && c ≤ '9') || ('A' ≤ c && c ≤ 'Z') || ('a' ≤ c && c ≤ 'z')
    || c = '_' || c = '-')

/-- The capture group `([0-9A-Za-z_-]{11})`: succeeds iff at least
eleven characters remain and the first eleven are all in the class,
returning those eleven characters. -/
def capture11 (cs : List Char) : Option (List Char) :=
  if (cs.take 11).length = 11 && (cs.take 11).all allowedChar then
    some (cs.take 11)
  else
    none

/-- Attempt of the first pattern `(?:v=|\/)([0-9A-Za-z_-]{11}).*` at the
head of the remaining input (the trailing `.*` always succeeds and binds
nothing, so it is not represented). -/
def matchP1Head (cs : List Char) : Option (List Char) :=
  match cs with
  | 'v' :: '=' :: r => capture11 r
  | '/' :: r => capture11 r
  | _ => none

/-- Attempt of a literal-prefixed pattern (`youtu\.be\/` or `embed\/`)
followed by the eleven-character capture at the head of the input. -/
def matchLitHead (lit : List Char) (cs : List Char) : Option (List Char) :=
  if lit.isPrefixOf cs then capture11 (cs.drop lit.length) else none

/-- Model of `re.search` for one pattern: positions are tried left to
right and the first position where the head matcher succeeds yields the
result.  (The matchers used here never succeed on the empty suffix, so
the final empty position need not be tried.) -/
def searchBy (f : List Char → Option (List Char)) : List Char → Option (List Char)
  | [] => none
  | c :: rest =>
    match f (c :: rest) with
    | some cap => some cap
    | none => searchBy f rest

/-- The literal characters of `youtu\.be\/` in the second pattern. -/
def youtuLit : List Char := "youtu.be/".data

/-- The literal characters of `embed\/` in the third pattern. -/
def embedLit : List Char := "embed/".data

/-- Model of `extract_video_id` (app.py lines 31-44): non-strings map to
`none`; otherwise the three patterns are tried in order and the first
match's capture group is returned. -/
def extract_video_id (u : Cell) : Option String :=
  match u with
  | Cell.s v =>
    match searchBy matchP1Head v.data with
    | some cap => some (String.mk cap)
    | none =>
      match searchBy (matchLitHead youtuLit) v.data with
      | some cap => some (String.mk cap)
      | none => Option.map String.mk (searchBy (matchLitHead embedLit) v.data)
  | _ => none

/-- Reads a maximal nonempty digit run from the front of the input,
returning its value and the rest; `none` when no digit is first. -/
def readNum (cs : List Char) : Option (Nat × List Char) :=
  let ds := cs.takeWhile Char.isDigit
  if ds = [] then none
  else some (ds.foldl (fun a c => a * 10 + (c.toNat - 48)) 0, cs.dropWhile Char.isDigit)

/-- Reads one optional duration component `<digits><u>`.  When the input
does not start with digits immediately followed by the unit letter `u`,
the component is absent: value `0`, input unconsumed. -/
def compOrZero (u : Char) (cs : List Char) : Nat × List Char :=
  match readNum cs with
  | none => (0, cs)
  | some (n, rest) =>
    match rest with
    | c :: rest2 => if c = u then (n, rest2) else (0, cs)
    | [] => (0, cs)

/-- Modelled from the external `isodate.parse_duration` library call in
`format_duration` (app.py line 80), restricted to the forms the tool
meets: `P[nW][nD][T[nH][nM][nS]]` with nonnegative integer components
(fractional, signed and year/month components are out of scope and map
to `none`, as do all strings the library rejects).  Returns the total
number of seconds. -/
def parse_duration (s : String) : Option Nat :=
  match s.data with
  | 'P' :: rest =>
    if rest = [] then none
    else
      let pw := compOrZero 'W' rest
      let pd := compOrZero 'D' pw.2
      match pd.2 with
      | [] => some (pw.1 * 604800 + pd.1 * 86400)
      | 'T' :: cs3 =>
        let ph := compOrZero 'H' cs3
        let pm := compOrZero 'M' ph.2
        let ps := compOrZero 'S' pm.2
        if ps.2 = [] then
          some (pw.1 * 604800 + pd.1 * 86400 + ph.1 * 3600 + pm.1 * 60 + ps.1)
        else none
      | _ => none
  | _ => none

/-- Model of `format_duration` (app.py lines 77-86): parse the ISO-8601
duration, take total seconds, render minutes and remainder seconds; any
parse failure is caught and yields the empty string. -/
def format_duration (iso : String) : String :=
  match parse_duration iso with
  | some n => toString (n / 60) ++ "分" ++ toString (n % 60) ++ "秒"
  | none => ""

/-- Metadata returned by the video platform for one id: the ISO-8601
duration string and the privacy status string (app.py lines 64-71). -/
structure MetaRec where
  duration : String
  status : String
deriving DecidableEq

/-- Association-list lookup modelling Python dict access (first match;
the dicts built here never hold duplicate keys). -/
def lookupA {α : Type} : List (String × α) → String → Option α
  | [], _ => none
  | p :: rest, k => if p.1 = k then some p.2 else lookupA rest k

/-- Python `d[k] = v` on an association list: replace the value in place
when the key exists, append otherwise. -/
def dictInsert {α : Type} (d : List (String × α)) (k : String) (v : α) : List (String × α) :=
  if d.any (fun p => p.1 = k) then
    d.map (fun p => if p.1 = k then (k, v) else p)
  else d ++ [(k, v)]

/-- Folds a response item list into the results dict, one `results[vid]
= {...}` assignment per item (app.py lines 64-71). -/
def insertItems {α : Type} (d : List (String × α)) : List (String × α) → List (String × α)
  | [] => d
  | p :: rest => insertItems (dictInsert d p.1 p.2) rest

/-- Oracle for the external API: `db` is the platform's table of
existing videos, and `fails` is the set of chunk requests that raise a
communication error. -/
structure ApiEnv where
  db : List (String × MetaRec)
  fails : List (List String)

/-- The item list of one successful chunk response: per the API contract
(spec section 6) one item per requested id that exists on the platform,
deleted or invalid ids being silently omitted. -/
def respItems (env : ApiEnv) (c : List String) : List (String × MetaRec) :=
  c.filterMap (fun v => (lookupA env.db v).map (fun m => (v, m)))

/-- The per-chunk loop of `fetch_youtube_details` (app.py lines 55-74):
a failing chunk reports one operator error (the error counter models the
`st.error` call) and contributes nothing; a successful chunk's items are
merged into the results dict. -/
def runChunks (env : ApiEnv) : List (List String) → List (String × MetaRec) → Nat → List (String × MetaRec) × Nat
  | [], acc, e => (acc, e)
  | c :: rest, acc, e =>
    if c ∈ env.fails then runChunks env rest acc (e + 1)
    else runChunks env rest (insertItems acc (respItems env c)) e

/-- Fuel-indexed chunk splitter; with fuel at least the list length it
yields the slices `l[0:50], l[50:100], ...` of the source's range loop. -/
def chunkAux {α : Type} : Nat → List α → List (List α)
  | _, [] => []
  | 0, _ :: _ => []
  | fuel + 1, x :: xs => ((x :: xs).take 50) :: chunkAux fuel ((x :: xs).drop 50)

/-- The chunk partition `video_ids[i:i+50]` for `i = 0, 50, 100, ...`
(app.py lines 54-56). -/
def chunkList {α : Type} (l : List α) : List (List α) :=
  chunkAux l.length l

/-- Model of `fetch_youtube_details` (app.py lines 46-75).  The second
component counts the operator error reports issued.  An empty API key or
an empty id list short-circuits to an empty mapping with no request. -/
def fetch_youtube_details (env : ApiEnv) (api_key : String) (video_ids : List String) :
    List (String × MetaRec) × Nat :=
  if api_key = "" ∨ video_ids = [] then ([], 0)
  else runChunks env (chunkList video_ids) [] 0

/-- The operator-supplied column mapping (app.py lines 157-166): each
logical field is bound to a source column name, `none` standing for the
sentinel choice "（なし）". -/
structure Mapping where
  entry_number : Option String
  entry_name : Option String
  instrument : Option String
  age : Option String
  song : Option String
  youtube : Option String
  duration : Option String
  email : Option String
deriving DecidableEq

/-- One roster row: column name to raw cell value.  `getCell` models
`row[col]`; the guard on `missing_cols` (app.py lines 204-211) ensures
every mapped column exists, so the default is never reached on processed
sheets. -/
def getCell (row : List (String × Cell)) (c : String) : Cell :=
  match lookupA row c with
  | some v => v
  | none => Cell.s ""

/-- The effective URL value `row[mapping["youtube"]] if mapped else ""`
(app.py line 229). -/
def effUrl (mp : Mapping) (row : List (String × Cell)) : Cell :=
  match mp.youtube with
  | some c => getCell row c
  | none => Cell.s ""

/-- The condition `youtube_url and str(youtube_url).lower() != "nan"`
shared by the link text (line 237) and the malformed branch (line 273). -/
def urlTruthy (u : Cell) : Bool :=
  truthy u && decide (strLower (cellStr u) ≠ "nan")

/-- The display text of the new "動画" column (app.py line 237). -/
def linkText (mp : Mapping) (row : List (String × Cell)) : String :=
  if urlTruthy (effUrl mp row) then "再生" else ""

/-- Whether `idx in id_map` holds for this row: the id extracted in the
pre-pass (app.py lines 214-220), present iff the URL column is mapped
and extraction succeeded. -/
def extractedId (mp : Mapping) (row : List (String × Cell)) : Option String :=
  match mp.youtube with
  | some c => extract_video_id (getCell row c)
  | none => none

/-- The fallback duration text set before the API check (app.py lines
232-234): the raw mapped duration cell, or the empty string. -/
def fallbackDur (mp : Mapping) (row : List (String × Cell)) : Cell :=
  match mp.duration with
  | some c => getCell row c
  | none => Cell.s ""

/-- `email_val` (app.py line 230): raw mapped cell, or the sentinel
"不明" when no email column is configured. -/
def emailVal (mp : Mapping) (row : List (String × Cell)) : Cell :=
  match mp.email with
  | some c => getCell row c
  | none => Cell.s "不明"

/-- `num_val` (app.py line 227). -/
def numVal (mp : Mapping) (row : List (String × Cell)) : Cell :=
  match mp.entry_number with
  | some c => getCell row c
  | none => Cell.s ""

/-- `name_val` (app.py line 228). -/
def nameVal (mp : Mapping) (row : List (String × Cell)) : Cell :=
  match mp.entry_name with
  | some c => getCell row c
  | none => Cell.s ""

/-- One entry of `error_logs_list` (app.py lines 251-283), minus the
constant `"type": "error"` field. -/
structure Diag where
  dept : String
  no : Cell
  name : Cell
  reason : String
  url : Cell
  email : Cell
deriving DecidableEq

/-- Builds the diagnostic appended for a non-Ok outcome, with the fields
taken exactly as in the three `error_logs_list.append` sites. -/
def mkDiag (sheet : String) (mp : Mapping) (row : List (String × Cell)) (reason : String) : Diag :=
  ⟨sheet, numVal mp row, nameVal mp row, reason, effUrl mp row, emailVal mp row⟩

/-- The per-row results the claims are about: the final `duration_text`
written as "演奏時間", the "動画" link text, and the diagnostic appended
to `error_logs_list` (if any). -/
structure RowOut where
  duration_text : Cell
  video_link : String
  diag : Option Diag
deriving DecidableEq

/-- The per-row classification (app.py lines 226-302, restricted to the
fields above): an extracted id is looked up in the prefetched table,
public/unlisted yields the formatted duration, any other status yields
the not-playable sentinel plus a diagnostic, a missing id yields the
invalid sentinel plus a diagnostic; with no extracted id, a truthy
non-"nan" URL yields the malformed-URL diagnostic, and otherwise no
diagnostic, the fallback duration text surviving in both cases. -/
def enrichRow (sheet : String) (mp : Mapping) (row : List (String × Cell))
    (api : List (String × MetaRec)) : RowOut :=
  match extractedId mp row with
  | some vid =>
    match lookupA api vid with
    | some details =>
      if details.status = "public" ∨ details.status = "unlisted" then
        ⟨Cell.s (format_duration details.duration), linkText mp row, none⟩
      else
        ⟨Cell.s "【再生不可】要確認", linkText mp row,
          some (mkDiag sheet mp row ("動画設定が「" ++ details.status ++ "」のため再生できません"))⟩
    | none =>
      ⟨Cell.s "【無効】要確認", linkText mp row,
        some (mkDiag sheet mp row "動画が見つかりません（削除またはID無効）")⟩
  | none =>
    if urlTruthy (effUrl mp row) then
      ⟨fallbackDur mp row, linkText mp row, some (mkDiag sheet mp row "URLの形式が不明です")⟩
    else
      ⟨fallbackDur mp row, linkText mp row, none⟩

/-- Deduplication modelling `list(set(...))` (app.py line 222); the
iteration order of a Python set is unspecified, this model keeps the
last occurrence of each id. -/
def dedupKeepLast : List String → List String
  | [] => []
  | x :: xs => if x ∈ xs then dedupKeepLast xs else x :: dedupKeepLast xs

/-- `unique_ids` of one sheet (app.py lines 214-222): the deduplicated
ids extracted from the mapped URL column of every row. -/
def extractIds (mp : Mapping) (rows : List (List (String × Cell))) : List String :=
  match mp.youtube with
  | some c => dedupKeepLast (rows.filterMap (fun r => extract_video_id (getCell r c)))
  | none => []

/-- The metadata table fetched once for a sheet, before its rows are
classified (app.py line 223). -/
def sheetApi (mp : Mapping) (env : ApiEnv) (key : String)
    (rows : List (List (String × Cell))) : List (String × MetaRec) :=
  (fetch_youtube_details env key (extractIds mp rows)).1

/-- Per-sheet processing (app.py lines 213-302): one fetch with the
sheet's deduplicated ids, then every row classified against that shared
table; the diagnostics are collected in row order. -/
def processSheet (mp : Mapping) (key : String) (env : ApiEnv) (sheet : String)
    (rows : List (List (String × Cell))) : List RowOut × List Diag :=
  let api := sheetApi mp env key rows
  let outs := rows.map (fun r => enrichRow sheet mp r api)
  (outs, outs.filterMap (fun o => o.diag))

/-- The metadata record a row's classification consults in a given
table: the lookup of its extracted id. -/
def recordUsed (mp : Mapping) (api : List (String × MetaRec))
    (row : List (String × Cell)) : Option MetaRec :=
  match extractedId mp row with
  | some vid => lookupA api vid
  | none => none

/-- One selected sheet of the uploaded workbook: its name, its actual
column names, and its rows. -/
structure Sheet where
  name : String
  columns : List String
  rows : List (List (String × Cell))

/-- `missing_cols` (app.py lines 204-207): the mapped column names
absent from the sheet's actual columns, in mapping order. -/
def missingCols (mp : Mapping) (cols : List String) : List String :=
  (([mp.entry_number, mp.entry_name, mp.instrument, mp.age, mp.song,
      mp.youtube, mp.duration, mp.email].filterMap id).filter
    (fun c => decide (¬ c ∈ cols)))

/-- The per-sheet loop (app.py lines 201-302): a sheet with missing
mapped columns is skipped (no output file, no diagnostics) and the
remaining sheets are still processed; otherwise its output is recorded
under its name and its diagnostics are appended. -/
def processWorkbook (mp : Mapping) (key : String) (env : ApiEnv) :
    List Sheet → List (String × List RowOut) × List Diag
  | [] => ([], [])
  | s :: rest =>
    if missingCols mp s.columns ≠ [] then processWorkbook mp key env rest
    else
      let here := processSheet mp key env s.name s.rows
      let there := processWorkbook mp key env rest
      ((s.name, here.1) :: there.1, here.2 ++ there.2)

/-- Left-biased option choice, used to state dict-merge lemmas. -/
def oor {α : Type} : Option α → Option α → Option α
  | some x, _ => some x
  | none, b => b

/-- The 120 pairwise-distinct ids of the chunking scenario. -/
def ids120 : List String := (List.range 120).map (fun n => toString n)

/-- Exactly one of three propositions holds. -/
def exactlyOne3 (A B C : Prop) : Prop :=
  (A ∧ ¬B ∧ ¬C) ∨ (B ∧ ¬A ∧ ¬C) ∨ (C ∧ ¬A ∧ ¬B)

/-- The mapped fields of the witness scenarios: entry number, name, song
and URL columns bound; instrument, age, duration and email unbound. -/
def mpW : Mapping :=
  ⟨some "No", some "Name", none, none, some "Song", some "URL", none, none⟩

/-- A roster row whose URL resolves to the scenario id. -/
def rowW : List (String × Cell) :=
  [("No", Cell.num 1), ("Name", Cell.s "Alice"), ("Song", Cell.s "SongA"),
    ("URL", Cell.s "https://youtu.be/dQw4w9WgXcQ")]

/-- A one-entry metadata table marking the scenario id public. -/
def apiW : List (String × MetaRec) := [("dQw4w9WgXcQ", MetaRec.mk "PT3M33S" "public")]

/-- A roster row whose URL field holds an unparseable string. -/
def rowM : List (String × Cell) :=
  [("No", Cell.num 2), ("Name", Cell.s "Bob"), ("Song", Cell.s "SongB"),
    ("URL", Cell.s "not a url")]

/-- Like `mpW` but with the email column mapped. -/
def mpE : Mapping :=
  ⟨some "No", some "Name", none, none, some "Song", some "URL", none, some "Email"⟩

/-- A malformed-URL row whose mapped email cell is NaN (empty cell). -/
def rowE : List (String × Cell) :=
  [("No", Cell.num 3), ("Name", Cell.s "Carol"), ("Song", Cell.s "SongC"),
    ("URL", Cell.s "not a url"), ("Email", Cell.nanF)]

/-- A sheet with no columns: every mapped column of `mpW` is missing. -/
def sheetBad : Sheet := ⟨"Bad", [], []⟩

theorem searchBy_none_iff (f : List Char → Option (List Char)) (hf : f [] = none) :
    ∀ cs, searchBy f cs = none ↔ ∀ i, f (cs.drop i) = none := by
  intro cs
  induction cs with
  | nil =>
    simp only [searchBy, List.drop_nil, true_iff]
    intro i
    exact hf
  | cons c rest ih =>
    cases h0 : f (c :: rest) with
    | some cap =>
      have hs : searchBy f (c :: rest) = some cap := by simp [searchBy, h0]
      rw [hs]
      constructor
      · intro h; simp at h
      · intro h
        have h00 := h 0
        rw [List.drop_zero, h0] at h00
        simp at h00
    | none =>
      have hs : searchBy f (c :: rest) = searchBy f rest := by simp [searchBy, h0]
      rw [hs, ih]
      constructor
      · intro h i
        cases i with
        | zero => simpa using h0
        | succ j => simpa using h j
      · intro h i
        simpa using h (i + 1)

theorem searchBy_some_first (f : List Char → Option (List Char)) :
    ∀ cs cap, searchBy f cs = some cap →
      ∃ i, f (cs.drop i) = some cap ∧ ∀ j, j < i → f (cs.drop j) = none := by
  intro cs
  induction cs with
  | nil => intro cap h; simp [searchBy] at h
  | cons c rest ih =>
    intro cap h
    simp only [searchBy] at h
    cases h0 : f (c :: rest) with
    | some cap0 =>
      rw [h0] at h
      refine ⟨0, ?_, ?_⟩
      · simpa [h0] using h
      · intro j hj; omega
    | none =>
      rw [h0] at h
      obtain ⟨i, hi, hlt⟩ := ih cap h
      refine ⟨i + 1, by simpa using hi, ?_⟩
      intro j hj
      cases j with
      | zero => simpa using h0
      | succ j2 => simpa using hlt j2 (by omega)

theorem searchBy_of_first (f : List Char → Option (List Char)) (hf : f [] = none) :
    ∀ cs i cap, f (cs.drop i) = some cap → (∀ j, j < i → f (cs.drop j) = none) →
      searchBy f cs = some cap := by
  intro cs
  induction cs with
  | nil =>
    intro i cap hi _
    rw [List.drop_nil] at hi
    rw [hf] at hi
    exact absurd hi (by simp)
  | cons c rest ih =>
    intro i cap hi hlt
    cases i with
    | zero =>
      rw [List.drop_zero] at hi
      simp [searchBy, hi]
    | succ i2 =>
      have h0 : f (c :: rest) = none := by simpa using hlt 0 (by omega)
      have h1 : f (rest.drop i2) = some cap := by simpa using hi
      have h2 : ∀ j, j < i2 → f (rest.drop j) = none := by
        intro j hj
        simpa using hlt (j + 1) (by omega)
      simp [searchBy, h0, ih i2 cap h1 h2]

theorem capture11_spec {cs cap : List Char} (h : capture11 cs = some cap) :
    cap.length = 11 ∧ cap.all allowedChar = true ∧ 11 ≤ cs.length := by
  unfold capture11 at h
  by_cases hc : ((cs.take 11).length = 11 && (cs.take 11).all allowedChar) = true
  · rw [if_pos hc] at h
    rw [Bool.and_eq_true, decide_eq_true_eq] at hc
    obtain ⟨h1, h2⟩ := hc
    obtain rfl : cs.take 11 = cap := by injection h
    refine ⟨h1, h2, ?_⟩
    rw [List.length_take] at h1
    omega
  · rw [if_neg hc] at h
    exact absurd h (by simp)

theorem matchP1Head_some {cs cap : List Char} (h : matchP1Head cs = some cap) :
    12 ≤ cs.length ∧ ∃ r, capture11 r = some cap := by
  unfold matchP1Head at h
  split at h
  · rename_i r
    have hl := (capture11_spec h).2.2
    exact ⟨by simp only [List.length_cons]; omega, r, h⟩
  · rename_i r
    have hl := (capture11_spec h).2.2
    exact ⟨by simp only [List.length_cons]; omega, r, h⟩
  · exact absurd h (by simp)

theorem matchLitHead_some {lit cs cap : List Char} (h : matchLitHead lit cs = some cap) :
    lit.length + 11 ≤ cs.length ∧ ∃ r, capture11 r = some cap := by
  unfold matchLitHead at h
  by_cases hp : lit.isPrefixOf cs
  · rw [if_pos hp] at h
    have hpre : lit.length ≤ cs.length :=
      (List.isPrefixOf_iff_prefix.mp hp).length_le
    have hlen := (capture11_spec h).2.2
    rw [List.length_drop] at hlen
    exact ⟨by omega, _, h⟩
  · rw [if_neg hp] at h
    exact absurd h (by simp)

theorem mk_length_all (cap : List Char) :
    (String.mk cap).length = cap.length ∧ (String.mk cap).data = cap :=
  ⟨rfl, rfl⟩

theorem extract_some_parts {v : String} {s : String}
    (h : extract_video_id (Cell.s v) = some s) :
    12 ≤ v.data.length ∧ s.length = 11 ∧ s.data.all allowedChar = true := by
  simp only [extract_video_id] at h
  have hdrop : ∀ i, (v.data.drop i).length ≤ v.data.length := by
    intro i; rw [List.length_drop]; omega
  cases h1 : searchBy matchP1Head v.data with
  | some cap =>
    rw [h1] at h
    obtain rfl : String.mk cap = s := by injection h
    obtain ⟨i, hi, -⟩ := searchBy_some_first _ _ _ h1
    obtain ⟨hlen, r, hr⟩ := matchP1Head_some hi
    obtain ⟨hc1, hc2, -⟩ := capture11_spec hr
    exact ⟨le_trans hlen (hdrop i), hc1, hc2⟩
  | none =>
    rw [h1] at h
    cases h2 : searchBy (matchLitHead youtuLit) v.data with
    | some cap =>
      rw [h2] at h
      obtain rfl : String.mk cap = s := by injection h
      obtain ⟨i, hi, -⟩ := searchBy_some_first _ _ _ h2
      obtain ⟨hlen, r, hr⟩ := matchLitHead_some hi
      obtain ⟨hc1, hc2, -⟩ := capture11_spec hr
      refine ⟨le_trans (le_trans ?_ hlen) (hdrop i), hc1, hc2⟩
      simp [youtuLit]
    | none =>
      rw [h2] at h
      cases h3 : searchBy (matchLitHead embedLit) v.data with
      | some cap =>
        rw [h3] at h
        obtain rfl : String.mk cap = s := by simpa using h
        obtain ⟨i, hi, -⟩ := searchBy_some_first _ _ _ h3
        obtain ⟨hlen, r, hr⟩ := matchLitHead_some hi
        obtain ⟨hc1, hc2, -⟩ := capture11_spec hr
        refine ⟨le_trans (le_trans ?_ hlen) (hdrop i), hc1, hc2⟩
        simp [embedLit]
      | none =>
        rw [h3] at h
        exact absurd h (by simp)

theorem oor_none_right {α : Type} (x : Option α) : oor x none = x := by
  cases x <;> rfl

theorem oor_idem {α : Type} (x y : Option α) : oor x (oor x y) = oor x y := by
  cases x <;> rfl

theorem lookupA_append {α : Type} :
    ∀ (d1 d2 : List (String × α)) (k : String),
      lookupA (d1 ++ d2) k = oor (lookupA d1 k) (lookupA d2 k) := by
  intro d1 d2 k
  induction d1 with
  | nil => simp [lookupA, oor]
  | cons p rest ih =>
    by_cases hp : p.1 = k
    · simp [lookupA, hp, oor]
    · simpa [lookupA, hp] using ih

theorem lookupA_none_iff {α : Type} :
    ∀ (d : List (String × α)) (k : String),
      lookupA d k = none ↔ d.any (fun p => p.1 = k) = false := by
  intro d k
  induction d with
  | nil => simp [lookupA]
  | cons p rest ih =>
    by_cases hp : p.1 = k
    · simp [lookupA, hp]
    · simpa [lookupA, hp] using ih

theorem lookupA_map_replace {α : Type} (k : String) (v : α) :
    ∀ (d : List (String × α)) (k' : String),
      lookupA (d.map (fun p => if p.1 = k then (k, v) else p)) k' =
        if k' = k then (if d.any (fun p => p.1 = k) then some v else none)
        else lookupA d k' := by
  intro d k'
  induction d with
  | nil => simp [lookupA]
  | cons p rest ih =>
    by_cases hk : k' = k
    · subst hk
      by_cases hp : p.1 = k'
      · simp [lookupA, hp]
      · have hd : (decide (p.1 = k') : Bool) = false := by simp [hp]
        simp [lookupA, hp, ih]
        rw [hd, Bool.false_or]
    · by_cases hp : p.1 = k
      · have hpk : ¬ p.1 = k' := by rw [hp]; exact Ne.symm hk
        simp [lookupA, hp, hk, hpk, Ne.symm hk, ih]
      · by_cases hpk : p.1 = k'
        · simp [lookupA, hp, hpk, hk]
        · simp [lookupA, hp, hpk, hk, ih]

theorem lookupA_dictInsert {α : Type} (d : List (String × α)) (k : String) (v : α)
    (k' : String) :
    lookupA (dictInsert d k v) k' = if k' = k then some v else lookupA d k' := by
  unfold dictInsert
  by_cases hc : d.any (fun p => p.1 = k) = true
  · rw [if_pos hc, lookupA_map_replace, hc]
    simp
  · rw [if_neg hc, lookupA_append]
    by_cases hk : k' = k
    · subst hk
      have hnone : lookupA d k' = none := by
        rw [lookupA_none_iff]
        cases hb : d.any (fun p => p.1 = k') with
        | false => rfl
        | true => exact absurd hb hc
      rw [hnone]
      simp [lookupA, oor]
    · have hskip : lookupA [(k, v)] k' = none := by simp [lookupA, Ne.symm hk]
      rw [hskip, oor_none_right, if_neg hk]

theorem lookupA_insertItems_resp (env : ApiEnv) :
    ∀ (c : List String) (d : List (String × MetaRec)) (k : String),
      lookupA (insertItems d (respItems env c)) k =
        if k ∈ c then oor (lookupA env.db k) (lookupA d k) else lookupA d k := by
  intro c
  induction c with
  | nil => intro d k; simp [respItems, insertItems]
  | cons v rest ih =>
    intro d k
    by_cases hv : (lookupA env.db v).isSome
    · obtain ⟨m, hm⟩ := Option.isSome_iff_exists.mp hv
      have hresp : respItems env (v :: rest) = (v, m) :: respItems env rest := by
        simp [respItems, hm]
      rw [hresp]
      show lookupA (insertItems (dictInsert d v m) (respItems env rest)) k = _
      rw [ih]
      by_cases hkv : k = v
      · subst hkv
        by_cases hkr : k ∈ rest
        · simp [hkr, lookupA_dictInsert, hm, oor]
        · simp [hkr, lookupA_dictInsert, hm, oor]
      · by_cases hkr : k ∈ rest
        · simp [hkr, hkv, lookupA_dictInsert, List.mem_cons]
        · simp [hkr, hkv, lookupA_dictInsert, List.mem_cons]
    · have hm : lookupA env.db v = none := Option.not_isSome_iff_eq_none.mp hv
      have hresp : respItems env (v :: rest) = respItems env rest := by
        simp [respItems, hm]
      rw [hresp, ih]
      by_cases hkv : k = v
      · subst hkv
        by_cases hkr : k ∈ rest
        · simp [hkr, List.mem_cons]
        · simp [hkr, List.mem_cons, hm, oor]
      · by_cases hkr : k ∈ rest
        · simp [hkr, hkv, List.mem_cons]
        · simp [hkr, hkv, List.mem_cons]

theorem runChunks_lookup (env : ApiEnv) :
    ∀ (chunks : List (List String)) (acc : List (String × MetaRec)) (e : Nat) (k : String),
      lookupA (runChunks env chunks acc e).1 k =
        if ∃ c, c ∈ chunks ∧ ¬ c ∈ env.fails ∧ k ∈ c then
          oor (lookupA env.db k) (lookupA acc k)
        else lookupA acc k := by
  intro chunks
  induction chunks with
  | nil => intro acc e k; simp [runChunks]
  | cons c rest ih =>
    intro acc e k
    by_cases hf : c ∈ env.fails
    · have hrun : runChunks env (c :: rest) acc e = runChunks env rest acc (e + 1) := by
        simp [runChunks, hf]
      rw [hrun, ih]
      have hiff : (∃ c2, c2 ∈ c :: rest ∧ ¬ c2 ∈ env.fails ∧ k ∈ c2) ↔
          (∃ c2, c2 ∈ rest ∧ ¬ c2 ∈ env.fails ∧ k ∈ c2) := by
        constructor
        · rintro ⟨c2, hmem, hnf, hkc⟩
          rcases List.mem_cons.mp hmem with rfl | hmem2
          · exact absurd hf hnf
          · exact ⟨c2, hmem2, hnf, hkc⟩
        · rintro ⟨c2, hmem, hnf, hkc⟩
          exact ⟨c2, List.mem_cons_of_mem _ hmem, hnf, hkc⟩
      by_cases hex : ∃ c2, c2 ∈ rest ∧ ¬ c2 ∈ env.fails ∧ k ∈ c2
      · rw [if_pos hex, if_pos (hiff.mpr hex)]
      · rw [if_neg hex, if_neg (fun h => hex (hiff.mp h))]
    · have hrun : runChunks env (c :: rest) acc e =
          runChunks env rest (insertItems acc (respItems env c)) e := by
        simp [runChunks, hf]
      rw [hrun, ih, lookupA_insertItems_resp]
      by_cases hkc : k ∈ c
      · by_cases hex : ∃ c2, c2 ∈ rest ∧ ¬ c2 ∈ env.fails ∧ k ∈ c2
        · rw [if_pos hex, if_pos hkc, oor_idem,
            if_pos ⟨c, List.mem_cons_self c rest, hf, hkc⟩]
        · rw [if_neg hex, if_pos hkc,
            if_pos ⟨c, List.mem_cons_self c rest, hf, hkc⟩]
      · by_cases hex : ∃ c2, c2 ∈ rest ∧ ¬ c2 ∈ env.fails ∧ k ∈ c2
        · have : ∃ c2, c2 ∈ c :: rest ∧ ¬ c2 ∈ env.fails ∧ k ∈ c2 := by
            obtain ⟨c2, hm, hn, hk2⟩ := hex
            exact ⟨c2, List.mem_cons_of_mem _ hm, hn, hk2⟩
          rw [if_pos hex, if_neg hkc, if_pos this]
        · have : ¬ ∃ c2, c2 ∈ c :: rest ∧ ¬ c2 ∈ env.fails ∧ k ∈ c2 := by
            rintro ⟨c2, hm, hn, hk2⟩
            rcases List.mem_cons.mp hm with rfl | hm2
            · exact hkc hk2
            · exact hex ⟨c2, hm2, hn, hk2⟩
          rw [if_neg hex, if_neg hkc, if_neg this]

theorem runChunks_err (env : ApiEnv) :
    ∀ (chunks : List (List String)) (acc : List (String × MetaRec)) (e : Nat),
      (runChunks env chunks acc e).2 =
        e + (chunks.filter (fun c => decide (c ∈ env.fails))).length := by
  intro chunks
  induction chunks with
  | nil => intro acc e; simp [runChunks]
  | cons c rest ih =>
    intro acc e
    by_cases hf : c ∈ env.fails
    · have hrun : runChunks env (c :: rest) acc e = runChunks env rest acc (e + 1) := by
        simp [runChunks, hf]
      rw [hrun, ih]
      simp [hf]
      omega
    · have hrun : runChunks env (c :: rest) acc e =
          runChunks env rest (insertItems acc (respItems env c)) e := by
        simp [runChunks, hf]
      rw [hrun, ih]
      simp [hf]

theorem mem_lookupA_ne_none {α : Type} :
    ∀ (d : List (String × α)) (k : String) (m : α), (k, m) ∈ d → lookupA d k ≠ none := by
  intro d k m hmem
  induction d with
  | nil => simp at hmem
  | cons p rest ih =>
    rcases List.mem_cons.mp hmem with rfl | h2
    · simp [lookupA]
    · by_cases hp : p.1 = k
      · simp [lookupA, hp]
      · simpa [lookupA, hp] using ih h2

theorem chunkAux_join {α : Type} :
    ∀ (fuel : Nat) (l : List α), l.length ≤ fuel → (chunkAux fuel l).flatten = l := by
  intro fuel
  induction fuel with
  | zero =>
    intro l hl
    cases l with
    | nil => rfl
    | cons x xs => simp at hl
  | succ f ih =>
    intro l hl
    cases l with
    | nil => rfl
    | cons x xs =>
      show (((x :: xs).take 50) :: chunkAux f ((x :: xs).drop 50)).flatten = x :: xs
      rw [List.flatten_cons, ih]
      · exact List.take_append_drop 50 (x :: xs)
      · rw [List.length_drop]
        simp only [List.length_cons] at hl ⊢
        omega

theorem chunkAux_sizes {α : Type} :
    ∀ (fuel : Nat) (l : List α) (c : List α), c ∈ chunkAux fuel l → c.length ≤ 50 := by
  intro fuel
  induction fuel with
  | zero =>
    intro l c hc
    cases l with
    | nil => simp [chunkAux] at hc
    | cons x xs => simp [chunkAux] at hc
  | succ f ih =>
    intro l c hc
    cases l with
    | nil => simp [chunkAux] at hc
    | cons x xs =>
      rcases List.mem_cons.mp hc with rfl | h2
      · rw [List.length_take]
        omega
      · exact ih _ _ h2

theorem chunkList_join {α : Type} (l : List α) : (chunkList l).flatten = l :=
  chunkAux_join l.length l le_rfl

theorem chunkList_sizes {α : Type} (l : List α) (c : List α) (h : c ∈ chunkList l) :
    c.length ≤ 50 :=
  chunkAux_sizes l.length l c h

theorem mem_dedupKeepLast : ∀ (l : List String) (x : String),
    x ∈ dedupKeepLast l ↔ x ∈ l := by
  intro l x
  induction l with
  | nil => simp [dedupKeepLast]
  | cons a xs ih =>
    by_cases ha : a ∈ xs
    · rw [show dedupKeepLast (a :: xs) = dedupKeepLast xs by simp [dedupKeepLast, ha]]
      rw [ih, List.mem_cons]
      constructor
      · exact Or.inr
      · rintro (rfl | hx)
        · exact ha
        · exact hx
    · rw [show dedupKeepLast (a :: xs) = a :: dedupKeepLast xs by simp [dedupKeepLast, ha]]
      rw [List.mem_cons, ih, List.mem_cons]

theorem nodup_dedupKeepLast : ∀ (l : List String), (dedupKeepLast l).Nodup := by
  intro l
  induction l with
  | nil => simp [dedupKeepLast]
  | cons a xs ih =>
    by_cases ha : a ∈ xs
    · rw [show dedupKeepLast (a :: xs) = dedupKeepLast xs by simp [dedupKeepLast, ha]]
      exact ih
    · rw [show dedupKeepLast (a :: xs) = a :: dedupKeepLast xs by simp [dedupKeepLast, ha]]
      exact List.nodup_cons.mpr ⟨fun h => ha ((mem_dedupKeepLast xs a).mp h), ih⟩

theorem strLower_nan_len {v : String} (h : strLower v = "nan") : v.data.length = 3 := by
  have hd : v.data.map Char.toLower = ("nan" : String).data := congrArg String.data h
  have hlen : (v.data.map Char.toLower).length = ("nan" : String).data.length :=
    congrArg List.length hd
  rw [List.length_map] at hlen
  rw [hlen]
  decide

theorem extract_of_lower_nan {u : Cell} (h : strLower (cellStr u) = "nan") :
    extract_video_id u = none := by
  cases u with
  | s v =>
    cases he : extract_video_id (Cell.s v) with
    | none => rfl
    | some s =>
      have hlong := (extract_some_parts he).1
      have hshort : v.data.length = 3 := strLower_nan_len h
      omega
  | nanF => rfl
  | num n => rfl

theorem extract_some_truthy {u : Cell} {s : String} (h : extract_video_id u = some s) :
    urlTruthy u = true := by
  cases u with
  | s v =>
    have hlong := (extract_some_parts h).1
    unfold urlTruthy truthy cellStr
    rw [Bool.and_eq_true, decide_eq_true_eq, decide_eq_true_eq]
    constructor
    · intro hv
      subst hv
      simp at hlong
    · intro hl
      have hshort : v.data.length = 3 := strLower_nan_len hl
      omega
  | nanF => simp [extract_video_id] at h
  | num n => simp [extract_video_id] at h

/-- C2: for a URL string matched by one of the three pattern rules, with
the rules tried in fixed priority order and the first (leftmost) match
winning, `extract_video_id` returns exactly that match's 11-character
capture (a string of eleven characters from the allowed class); when no
rule matches anywhere, and on every non-string input, it returns `none`
(the model is total, so it never raises). -/
theorem claim2_extract_contract :
    (∀ v : String,
      (∀ i cap, matchP1Head (v.data.drop i) = some cap →
        (∀ j, j < i → matchP1Head (v.data.drop j) = none) →
        extract_video_id (Cell.s v) = some (String.mk cap)) ∧
      ((∀ i, matchP1Head (v.data.drop i) = none) →
        ∀ i cap, matchLitHead youtuLit (v.data.drop i) = some cap →
          (∀ j, j < i → matchLitHead youtuLit (v.data.drop j) = none) →
          extract_video_id (Cell.s v) = some (String.mk cap)) ∧
      ((∀ i, matchP1Head (v.data.drop i) = none) →
        (∀ i, matchLitHead youtuLit (v.data.drop i) = none) →
        ∀ i cap, matchLitHead embedLit (v.data.drop i) = some cap →
          (∀ j, j < i → matchLitHead embedLit (v.data.drop j) = none) →
          extract_video_id (Cell.s v) = some (String.mk cap)) ∧
      ((∀ i, matchP1Head (v.data.drop i) = none) →
        (∀ i, matchLitHead youtuLit (v.data.drop i) = none) →
        (∀ i, matchLitHead embedLit (v.data.drop i) = none) →
        extract_video_id (Cell.s v) = none) ∧
      (∀ s, extract_video_id (Cell.s v) = some s →
        s.length = 11 ∧ s.data.all allowedChar = true)) ∧
    extract_video_id Cell.nanF = none ∧
    (∀ n : Int, extract_video_id (Cell.num n) = none) := by
  refine ⟨fun v => ⟨?_, ?_, ?_, ?_, fun s h => (extract_some_parts h).2⟩, rfl, fun n => rfl⟩
  · intro i cap hi hlt
    have hs : searchBy matchP1Head v.data = some cap :=
      searchBy_of_first matchP1Head rfl v.data i cap hi hlt
    simp [extract_video_id, hs]
  · intro hall i cap hi hlt
    have h1 : searchBy matchP1Head v.data = none :=
      (searchBy_none_iff matchP1Head rfl v.data).mpr hall
    have h2 : searchBy (matchLitHead youtuLit) v.data = some cap :=
      searchBy_of_first (matchLitHead youtuLit) (by decide) v.data i cap hi hlt
    simp [extract_video_id, h1, h2]
  · intro hall1 hall2 i cap hi hlt
    have h1 : searchBy matchP1Head v.data = none :=
      (searchBy_none_iff matchP1Head rfl v.data).mpr hall1
    have h2 : searchBy (matchLitHead youtuLit) v.data = none :=
      (searchBy_none_iff (matchLitHead youtuLit) (by decide) v.data).mpr hall2
    have h3 : searchBy (matchLitHead embedLit) v.data = some cap :=
      searchBy_of_first (matchLitHead embedLit) (by decide) v.data i cap hi hlt
    simp [extract_video_id, h1, h2, h3]
  · intro hall1 hall2 hall3
    have h1 : searchBy matchP1Head v.data = none :=
      (searchBy_none_iff matchP1Head rfl v.data).mpr hall1
    have h2 : searchBy (matchLitHead youtuLit) v.data = none :=
      (searchBy_none_iff (matchLitHead youtuLit) (by decide) v.data).mpr hall2
    have h3 : searchBy (matchLitHead embedLit) v.data = none :=
      (searchBy_none_iff (matchLitHead embedLit) (by decide) v.data).mpr hall3
    simp [extract_video_id, h1, h2, h3]

theorem claim2_extract_contract_witness :
    extract_video_id (Cell.s "https://www.youtube.com/watch?v=dQw4w9WgXcQ") =
      some "dQw4w9WgXcQ" :=
  (claim2_extract_contract.1 "https://www.youtube.com/watch?v=dQw4w9WgXcQ").1
    30 ("dQw4w9WgXcQ".data) (by decide) (by decide)

/-- C9: the first pattern rule fires on any position where a slash or
the two characters of a query key are followed by eleven allowed
characters, platform URL or not, so extraction succeeds on such strings
(returning the leftmost such run), as on
"https://example.com/abcdefghijk". -/
theorem claim9_overbroad_extraction :
    (∀ v : String, (∃ i cap, matchP1Head (v.data.drop i) = some cap) →
      ∃ i cap, matchP1Head (v.data.drop i) = some cap ∧
        (∀ j, j < i → matchP1Head (v.data.drop j) = none) ∧
        extract_video_id (Cell.s v) = some (String.mk cap)) ∧
    extract_video_id (Cell.s "https://example.com/abcdefghijk") = some "abcdefghijk" := by
  constructor
  · intro v hex
    cases hs : searchBy matchP1Head v.data with
    | none =>
      obtain ⟨i, cap, hi⟩ := hex
      have := (searchBy_none_iff matchP1Head rfl v.data).mp hs i
      rw [this] at hi
      exact absurd hi (by simp)
    | some cap =>
      obtain ⟨i, hi, hlt⟩ := searchBy_some_first matchP1Head v.data cap hs
      exact ⟨i, cap, hi, hlt, by simp [extract_video_id, hs]⟩
  · decide

theorem claim9_overbroad_extraction_witness :
    ∃ i cap,
      matchP1Head (("https://example.com/abcdefghijk" : String).data.drop i) = some cap ∧
      (∀ j, j < i →
        matchP1Head (("https://example.com/abcdefghijk" : String).data.drop j) = none) ∧
      extract_video_id (Cell.s "https://example.com/abcdefghijk") = some (String.mk cap) :=
  claim9_overbroad_extraction.1 "https://example.com/abcdefghijk"
    ⟨19, "abcdefghijk".data, by decide⟩

/-- C4: for any duration string the model parser accepts with total
seconds n, `format_duration` renders n div 60 minutes and n mod 60
seconds with no hour component; any rejected input yields the empty
string; in particular "PT0S" renders as "0分0秒" and "PT1H2M3S" (3723
total seconds) as "62分3秒". -/
theorem claim4_duration_format :
    (∀ s n, parse_duration s = some n →
      format_duration s = toString (n / 60) ++ "分" ++ toString (n % 60) ++ "秒") ∧
    (∀ s, parse_duration s = none → format_duration s = "") ∧
    format_duration "PT0S" = "0分0秒" ∧
    parse_duration "PT1H2M3S" = some 3723 ∧
    format_duration "PT1H2M3S" = "62分3秒" := by
  refine ⟨?_, ?_, by decide, by decide, by decide⟩
  · intro s n h
    simp [format_duration, h]
  · intro s h
    simp [format_duration, h]

theorem claim4_duration_format_witness :
    format_duration "PT0S" = toString (0 / 60) ++ "分" ++ toString (0 % 60) ++ "秒" :=
  claim4_duration_format.1 "PT0S" 0 (by decide)

/-- C5: the fetch partitions its id list into consecutive chunks of at
most 50 (whose concatenation is the input, one request per chunk), the
merged mapping's key set is a subset of the input ids (an id missing
from a response is simply never inserted), and 120 distinct ids yield
exactly three chunks of sizes 50, 50, 20. -/
theorem claim5_chunking :
    (∀ (env : ApiEnv) (key : String) (ids : List String),
      (∀ c, c ∈ chunkList ids → c.length ≤ 50) ∧
      (chunkList ids).flatten = ids ∧
      (∀ k m, (k, m) ∈ (fetch_youtube_details env key ids).1 → k ∈ ids)) ∧
    (chunkList ids120).map List.length = [50, 50, 20] ∧
    ids120.Nodup := by
  refine ⟨fun env key ids => ⟨chunkList_sizes ids, chunkList_join ids, ?_⟩,
    by decide, by decide⟩
  intro k m hmem
  unfold fetch_youtube_details at hmem
  by_cases hg : key = "" ∨ ids = []
  · rw [if_pos hg] at hmem
    simp at hmem
  · rw [if_neg hg] at hmem
    have hlk := mem_lookupA_ne_none _ _ _ hmem
    rw [runChunks_lookup] at hlk
    by_cases hex : ∃ c, c ∈ chunkList ids ∧ ¬ c ∈ env.fails ∧ k ∈ c
    · obtain ⟨c, hc, -, hkc⟩ := hex
      have : k ∈ (chunkList ids).flatten := List.mem_flatten.mpr ⟨c, hc, hkc⟩
      rwa [chunkList_join] at this
    · rw [if_neg hex] at hlk
      exact absurd rfl hlk

theorem claim5_chunking_witness :
    (["a"] : List String).length ≤ 50 ∧ (chunkList ["a"]).flatten = ["a"] :=
  ⟨(claim5_chunking.1 ⟨[], []⟩ "k" ["a"]).1 ["a"] (by decide),
    (claim5_chunking.1 ⟨[], []⟩ "k" ["a"]).2.1⟩

/-- C6: an empty API key or empty id list yields an empty mapping with
no request and no error; otherwise a key is mapped (to its platform
record) iff some non-failing chunk contains it — so a failing chunk's
ids are absent unless another chunk succeeds with them, all remaining
chunks are still processed, and the call returns instead of propagating
the failure — and exactly one operator error is reported per failing
chunk. -/
theorem claim6_fetch_failures :
    (∀ (env : ApiEnv) (ids : List String), fetch_youtube_details env "" ids = ([], 0)) ∧
    (∀ (env : ApiEnv) (key : String), fetch_youtube_details env key [] = ([], 0)) ∧
    (∀ (env : ApiEnv) (key : String) (ids : List String) (k : String) (m : MetaRec),
      key ≠ "" → ids ≠ [] →
      (lookupA (fetch_youtube_details env key ids).1 k = some m ↔
        (lookupA env.db k = some m ∧
          ∃ c, c ∈ chunkList ids ∧ ¬ c ∈ env.fails ∧ k ∈ c))) ∧
    (∀ (env : ApiEnv) (key : String) (ids : List String),
      key ≠ "" → ids ≠ [] →
      (fetch_youtube_details env key ids).2 =
        ((chunkList ids).filter (fun c => decide (c ∈ env.fails))).length) := by
  refine ⟨fun env ids => by simp [fetch_youtube_details],
    fun env key => by simp [fetch_youtube_details], ?_, ?_⟩
  · intro env key ids k m hk hi
    unfold fetch_youtube_details
    rw [if_neg (by tauto)]
    rw [runChunks_lookup]
    by_cases hex : ∃ c, c ∈ chunkList ids ∧ ¬ c ∈ env.fails ∧ k ∈ c
    · rw [if_pos hex]
      rw [show lookupA ([] : List (String × MetaRec)) k = none from rfl, oor_none_right]
      constructor
      · intro h
        exact ⟨h, hex⟩
      · intro h
        exact h.1
    · rw [if_neg hex]
      rw [show lookupA ([] : List (String × MetaRec)) k = none from rfl]
      constructor
      · intro h
        simp at h
      · intro h
        exact absurd h.2 hex
  · intro env key ids hk hi
    unfold fetch_youtube_details
    rw [if_neg (by tauto)]
    rw [runChunks_err]
    omega

theorem claim6_fetch_failures_witness :
    lookupA (fetch_youtube_details ⟨[("a", MetaRec.mk "PT1M0S" "public")], []⟩
      "key" ["a"]).1 "a" = some (MetaRec.mk "PT1M0S" "public") :=
  (claim6_fetch_failures.2.2.1 ⟨[("a", MetaRec.mk "PT1M0S" "public")], []⟩
      "key" ["a"] "a" (MetaRec.mk "PT1M0S" "public")
      (by decide) (by decide)).mpr
    ⟨rfl, ["a"], by decide, by decide, by decide⟩

theorem enrichRow_diag_fields (sheet : String) (mp : Mapping) (row : List (String × Cell))
    (api : List (String × MetaRec)) (d : Diag)
    (h : (enrichRow sheet mp row api).diag = some d) :
    d.email = emailVal mp row ∧ d.dept = sheet := by
  unfold enrichRow at h
  split at h
  · split at h
    · split at h
      · simp at h
      · simp at h
        subst h
        exact ⟨rfl, rfl⟩
    · simp at h
      subst h
      exact ⟨rfl, rfl⟩
  · split at h
    · simp at h
      subst h
      exact ⟨rfl, rfl⟩
    · simp at h

/-- C1: a row with an extracted id (necessarily a truthy non-"nan" URL
value) falls into exactly one of Ok (id mapped with public or unlisted
status: formatted duration, no diagnostic), Blocked (id mapped with any
other status: not-playable sentinel, diagnostic), NotFound (id unmapped:
invalid sentinel, diagnostic); a row with a truthy non-"nan" URL value
and no extracted id gets the malformed-URL diagnostic and keeps the
fallback duration; and a row whose URL field is unmapped, empty, or a
case-insensitive "nan" produces no diagnostic. -/
theorem claim1_classification (sheet : String) (mp : Mapping)
    (row : List (String × Cell)) (api : List (String × MetaRec)) :
    (∀ vid, extractedId mp row = some vid →
      urlTruthy (effUrl mp row) = true ∧
      exactlyOne3
        (∃ det, lookupA api vid = some det ∧
          (det.status = "public" ∨ det.status = "unlisted") ∧
          enrichRow sheet mp row api =
            ⟨Cell.s (format_duration det.duration), linkText mp row, none⟩)
        (∃ det, lookupA api vid = some det ∧
          ¬(det.status = "public" ∨ det.status = "unlisted") ∧
          enrichRow sheet mp row api =
            ⟨Cell.s "【再生不可】要確認", linkText mp row,
              some (mkDiag sheet mp row
                ("動画設定が「" ++ det.status ++ "」のため再生できません"))⟩)
        (lookupA api vid = none ∧
          enrichRow sheet mp row api =
            ⟨Cell.s "【無効】要確認", linkText mp row,
              some (mkDiag sheet mp row "動画が見つかりません（削除またはID無効）")⟩)) ∧
    (extractedId mp row = none → urlTruthy (effUrl mp row) = true →
      enrichRow sheet mp row api =
        ⟨fallbackDur mp row, linkText mp row,
          some (mkDiag sheet mp row "URLの形式が不明です")⟩) ∧
    ((mp.youtube = none ∨ effUrl mp row = Cell.s "" ∨
        strLower (cellStr (effUrl mp row)) = "nan") →
      (enrichRow sheet mp row api).diag = none) := by
  refine ⟨?_, ?_, ?_⟩
  · intro vid hvid
    have htr : urlTruthy (effUrl mp row) = true := by
      cases hm : mp.youtube with
      | none => simp [extractedId, hm] at hvid
      | some c =>
        have hvc : extract_video_id (getCell row c) = some vid := by
          simpa [extractedId, hm] using hvid
        have := extract_some_truthy hvc
        simpa [effUrl, hm] using this
    refine ⟨htr, ?_⟩
    unfold exactlyOne3
    cases hl : lookupA api vid with
    | some det =>
      by_cases hst : det.status = "public" ∨ det.status = "unlisted"
      · have hrow : enrichRow sheet mp row api =
            ⟨Cell.s (format_duration det.duration), linkText mp row, none⟩ := by
          simp only [enrichRow, hvid, hl]
          rw [if_pos hst]
        refine Or.inl ⟨⟨det, rfl, hst, hrow⟩, ?_, ?_⟩
        · rintro ⟨d2, hd2, hst2, -⟩
          obtain rfl := Option.some.inj hd2
          exact hst2 hst
        · rintro ⟨hnone, -⟩
          exact absurd hnone (by simp)
      · have hrow : enrichRow sheet mp row api =
            ⟨Cell.s "【再生不可】要確認", linkText mp row,
              some (mkDiag sheet mp row
                ("動画設定が「" ++ det.status ++ "」のため再生できません"))⟩ := by
          simp only [enrichRow, hvid, hl]
          rw [if_neg hst]
        refine Or.inr (Or.inl ⟨⟨det, rfl, hst, hrow⟩, ?_, ?_⟩)
        · rintro ⟨d2, hd2, hst2, -⟩
          obtain rfl := Option.some.inj hd2
          exact hst hst2
        · rintro ⟨hnone, -⟩
          exact absurd hnone (by simp)
    | none =>
      have hrow : enrichRow sheet mp row api =
          ⟨Cell.s "【無効】要確認", linkText mp row,
            some (mkDiag sheet mp row "動画が見つかりません（削除またはID無効）")⟩ := by
        simp only [enrichRow, hvid, hl]
      refine Or.inr (Or.inr ⟨⟨rfl, hrow⟩, ?_, ?_⟩)
      · rintro ⟨d2, hd2, -, -⟩
        exact absurd hd2 (by simp)
      · rintro ⟨d2, hd2, -, -⟩
        exact absurd hd2 (by simp)
  · intro h1 h2
    simp only [enrichRow, h1]
    rw [if_pos h2]
  · intro h
    have hext : extractedId mp row = none ∧ urlTruthy (effUrl mp row) = false := by
      rcases h with hnone | hempty | hnan
      · exact ⟨by simp [extractedId, hnone],
          by simp [effUrl, hnone, urlTruthy, truthy]⟩
      · constructor
        · cases hm : mp.youtube with
          | none => simp [extractedId, hm]
          | some c =>
            have hcell : getCell row c = Cell.s "" := by
              simpa [effUrl, hm] using hempty
            simp [extractedId, hm, hcell]
            decide
        · rw [hempty]
          decide
      · constructor
        · cases hm : mp.youtube with
          | none => simp [extractedId, hm]
          | some c =>
            have hcell : strLower (cellStr (getCell row c)) = "nan" := by
              simpa [effUrl, hm] using hnan
            have := extract_of_lower_nan hcell
            simpa [extractedId, hm] using this
        · unfold urlTruthy
          rw [hnan]
          simp
    simp [enrichRow, hext.1, hext.2]

theorem claim1_classification_witness : (enrichRow "S" mpW rowW apiW).diag = none := by
  have h := (claim1_classification "S" mpW rowW apiW).1 "dQw4w9WgXcQ" (by decide)
  rcases h.2 with ⟨⟨d, hd, -, hrow⟩, -, -⟩ | ⟨⟨d, hd, hst, -⟩, -, -⟩ | ⟨⟨hd, -⟩, -, -⟩
  · rw [hrow]
  · rw [show lookupA apiW "dQw4w9WgXcQ" = some (MetaRec.mk "PT3M33S" "public") from rfl] at hd
    obtain rfl := Option.some.inj hd
    exact absurd (Or.inl rfl) hst
  · rw [show lookupA apiW "dQw4w9WgXcQ" = some (MetaRec.mk "PT3M33S" "public") from rfl] at hd
    exact absurd hd (by simp)

/-- C3: when a truthy non-"nan" URL value yields no extracted id (the
malformed-URL outcome), the playable link text is still the playable
marker — the flag only reflects that a URL value is present — while the
duration text keeps the fallback: the raw mapped duration cell, or the
empty string when no duration column is mapped. -/
theorem claim3_malformed_keeps_flag (sheet : String) (mp : Mapping)
    (row : List (String × Cell)) (api : List (String × MetaRec)) :
    extractedId mp row = none → urlTruthy (effUrl mp row) = true →
      (enrichRow sheet mp row api).video_link = "再生" ∧
      (enrichRow sheet mp row api).duration_text = fallbackDur mp row ∧
      fallbackDur mp row = (match mp.duration with
        | some c => getCell row c
        | none => Cell.s "") := by
  intro h1 h2
  have hrow : enrichRow sheet mp row api =
      ⟨fallbackDur mp row, linkText mp row,
        some (mkDiag sheet mp row "URLの形式が不明です")⟩ := by
    simp only [enrichRow, h1]
    rw [if_pos h2]
  rw [hrow]
  refine ⟨?_, rfl, rfl⟩
  show linkText mp row = "再生"
  unfold linkText
  rw [if_pos h2]

theorem claim3_malformed_keeps_flag_witness :
    (enrichRow "S" mpW rowM []).video_link = "再生" ∧
    (enrichRow "S" mpW rowM []).duration_text = fallbackDur mpW rowM :=
  ⟨(claim3_malformed_keeps_flag "S" mpW rowM [] (by decide) (by decide)).1,
    (claim3_malformed_keeps_flag "S" mpW rowM [] (by decide) (by decide)).2.1⟩

/-- C10: every diagnostic's email field equals the per-sheet email
value; that value is the unknown sentinel "不明" precisely when no email
column is mapped, and the raw cell value of the mapped email column
otherwise — with no per-cell fallback, so an empty or NaN cell is
carried as is. -/
theorem claim10_diag_email (sheet : String) (mp : Mapping)
    (row : List (String × Cell)) (api : List (String × MetaRec)) (d : Diag) :
    (enrichRow sheet mp row api).diag = some d →
      d.email = emailVal mp row ∧
      (mp.email = none → d.email = Cell.s "不明") ∧
      (∀ c, mp.email = some c → d.email = getCell row c) := by
  intro h
  have he := (enrichRow_diag_fields sheet mp row api d h).1
  refine ⟨he, fun hn => ?_, fun c hc => ?_⟩
  · rw [he]
    simp [emailVal, hn]
  · rw [he]
    simp [emailVal, hc]

theorem claim10_diag_email_witness :
    (enrichRow "S" mpE rowE []).diag = some (mkDiag "S" mpE rowE "URLの形式が不明です") ∧
    (mkDiag "S" mpE rowE "URLの形式が不明です").email = Cell.nanF :=
  ⟨rfl,
    ((claim10_diag_email "S" mpE rowE [] (mkDiag "S" mpE rowE "URLの形式が不明です")
        rfl).2.2 "Email" rfl).trans rfl⟩

theorem processSheet_diag_dept (mp : Mapping) (key : String) (env : ApiEnv)
    (sheet : String) (rows : List (List (String × Cell))) :
    ∀ d, d ∈ (processSheet mp key env sheet rows).2 → d.dept = sheet := by
  intro d hd
  simp only [processSheet, List.mem_filterMap, List.mem_map] at hd
  obtain ⟨o, ⟨r, hr, rfl⟩, hdiag⟩ := hd
  exact (enrichRow_diag_fields _ _ _ _ _ hdiag).2

/-- C7: a sheet's rows are all classified against the single metadata
table fetched once from the sheet's id list — which is deduplicated
(no duplicates, and it holds exactly the ids extracted from the sheet's
rows) — so any two rows of the sheet whose URLs extract to the same id
consult the same metadata record of that one shared table. -/
theorem claim7_single_fetch (mp : Mapping) (env : ApiEnv) (key : String)
    (sheet : String) (rows : List (List (String × Cell))) :
    (processSheet mp key env sheet rows).1 =
      rows.map (fun r => enrichRow sheet mp r (sheetApi mp env key rows)) ∧
    (extractIds mp rows).Nodup ∧
    (∀ v, v ∈ extractIds mp rows ↔
      ∃ c, mp.youtube = some c ∧
        ∃ r, r ∈ rows ∧ extract_video_id (getCell r c) = some v) ∧
    (∀ r1 r2 vid, r1 ∈ rows → r2 ∈ rows →
      extractedId mp r1 = some vid → extractedId mp r2 = some vid →
      recordUsed mp (sheetApi mp env key rows) r1 =
        recordUsed mp (sheetApi mp env key rows) r2) := by
  refine ⟨rfl, ?_, ?_, ?_⟩
  · unfold extractIds
    cases mp.youtube with
    | none => simp
    | some c => exact nodup_dedupKeepLast _
  · intro v
    unfold extractIds
    cases hm : mp.youtube with
    | none => simp
    | some c =>
      simp only [mem_dedupKeepLast, List.mem_filterMap]
      constructor
      · rintro ⟨r, hr, he⟩
        exact ⟨c, rfl, r, hr, he⟩
      · rintro ⟨c2, hc2, r, hr, he⟩
        obtain rfl := Option.some.inj hc2
        exact ⟨r, hr, he⟩
  · intro r1 r2 vid h1 h2 he1 he2
    unfold recordUsed
    rw [he1, he2]

theorem claim7_single_fetch_witness :
    "dQw4w9WgXcQ" ∈ extractIds mpW [rowW, rowW] ∧
    recordUsed mpW (sheetApi mpW ⟨[], []⟩ "k" [rowW, rowW]) rowW =
      recordUsed mpW (sheetApi mpW ⟨[], []⟩ "k" [rowW, rowW]) rowW :=
  ⟨((claim7_single_fetch mpW ⟨[], []⟩ "k" "S" [rowW, rowW]).2.2.1 "dQw4w9WgXcQ").mpr
      ⟨"URL", rfl, rowW, by decide, by decide⟩,
    (claim7_single_fetch mpW ⟨[], []⟩ "k" "S" [rowW, rowW]).2.2.2 rowW rowW
      "dQw4w9WgXcQ" (by decide) (by decide) (by decide) (by decide)⟩

/-- C8: sheets with a mapped column absent from their actual columns are
skipped entirely — processing a sheet list equals processing the list
with those sheets removed, a skipped sheet alone produces no output and
no diagnostics, and every produced output and diagnostic belongs to a
sheet whose mapped columns are all present. -/
theorem claim8_skip_missing_columns (mp : Mapping) (key : String) (env : ApiEnv) :
    (∀ sheets : List Sheet,
      processWorkbook mp key env sheets =
        processWorkbook mp key env
          (sheets.filter (fun s => decide (missingCols mp s.columns = [])))) ∧
    (∀ s : Sheet, missingCols mp s.columns ≠ [] →
      processWorkbook mp key env [s] = ([], [])) ∧
    (∀ (sheets : List Sheet) (p : String × List RowOut),
      p ∈ (processWorkbook mp key env sheets).1 →
      ∃ s, s ∈ sheets ∧ missingCols mp s.columns = [] ∧ p.1 = s.name) ∧
    (∀ (sheets : List Sheet) (d : Diag),
      d ∈ (processWorkbook mp key env sheets).2 →
      ∃ s, s ∈ sheets ∧ missingCols mp s.columns = [] ∧ d.dept = s.name) := by
  refine ⟨?_, ?_, ?_, ?_⟩
  · intro sheets
    induction sheets with
    | nil => rfl
    | cons s rest ih =>
      by_cases hm : missingCols mp s.columns = []
      · rw [List.filter_cons, if_pos (by simp [hm])]
        show processWorkbook mp key env (s :: rest) = processWorkbook mp key env (s :: _)
        simp only [processWorkbook]
        rw [if_neg (fun hne => hne hm), if_neg (fun hne => hne hm), ih]
      · rw [List.filter_cons, if_neg (by simp [hm])]
        show processWorkbook mp key env (s :: rest) = _
        simp only [processWorkbook]
        rw [if_pos hm]
        exact ih
  · intro s h
    simp [processWorkbook, h]
  · intro sheets
    induction sheets with
    | nil =>
      intro p hp
      simp [processWorkbook] at hp
    | cons s rest ih =>
      intro p hp
      by_cases hm : missingCols mp s.columns = []
      · simp only [processWorkbook] at hp
        rw [if_neg (fun hne => hne hm)] at hp
        simp only [] at hp
        rcases List.mem_cons.mp hp with rfl | h2
        · exact ⟨s, List.mem_cons_self s rest, hm, rfl⟩
        · obtain ⟨s2, hs2, hm2, hname⟩ := ih p h2
          exact ⟨s2, List.mem_cons_of_mem _ hs2, hm2, hname⟩
      · simp only [processWorkbook] at hp
        rw [if_pos hm] at hp
        obtain ⟨s2, hs2, hm2, hname⟩ := ih p hp
        exact ⟨s2, List.mem_cons_of_mem _ hs2, hm2, hname⟩
  · intro sheets
    induction sheets with
    | nil =>
      intro d hd
      simp [processWorkbook] at hd
    | cons s rest ih =>
      intro d hd
      by_cases hm : missingCols mp s.columns = []
      · simp only [processWorkbook] at hd
        rw [if_neg (fun hne => hne hm)] at hd
        simp only [] at hd
        rcases List.mem_append.mp hd with h2 | h2
        · exact ⟨s, List.mem_cons_self s rest, hm,
            processSheet_diag_dept mp key env s.name s.rows d h2⟩
        · obtain ⟨s2, hs2, hm2, hname⟩ := ih d h2
          exact ⟨s2, List.mem_cons_of_mem _ hs2, hm2, hname⟩
      · simp only [processWorkbook] at hd
        rw [if_pos hm] at hd
        obtain ⟨s2, hs2, hm2, hname⟩ := ih d hd
        exact ⟨s2, List.mem_cons_of_mem _ hs2, hm2, hname⟩

theorem claim8_skip_missing_columns_witness :
    processWorkbook mpW "k" ⟨[], []⟩ [sheetBad] = ([], []) :=
  (claim8_skip_missing_columns mpW "k" ⟨[], []⟩).2.1 sheetBad (by decide)
